import Mathlib

/-!
Verification of the protocol layer of the small HTTP/1.1 server in
`src/main.rs`.  The wire is modelled at the byte level: a stream is a
`List Nat` of byte values, Rust `String`s are modelled by the list of
their UTF-8 bytes (so Rust's `String::len`, a byte count, is `List.length`).
`BufRead::read_line` validates UTF-8, so the model carries a faithful
UTF-8 validator; the request body is produced with
`String::from_utf8_lossy`, so the model also carries the lossy decoder
(re-encoded back to bytes).  Fallible operations (I/O failure, `unwrap`
of `None`, i.e. a panic) are modelled with `Option`.
-/

set_option maxRecDepth 20000

/-- A byte stream / the UTF-8 bytes of a Rust `String`. -/
abbrev Bytes := List Nat

/-- Bytes of an ASCII string literal (every character below 128). -/
def asciiBytes (s : String) : Bytes := s.data.map Char.toNat

/-- ASCII-range white-space bytes, as recognised by Rust's
`char::is_whitespace` (`\t \n \v \f \r` and space). -/
def isWsB (b : Nat) : Bool :=
  b = 9 || b = 10 || b = 11 || b = 12 || b = 13 || b = 32

/-- `str::trim_end`: drop trailing white space. -/
def trimEnd (l : Bytes) : Bytes := (l.reverse.dropWhile isWsB).reverse

/-- `str::split_whitespace`: the white-space-separated tokens of a line
(no empty tokens), by structural recursion with one byte of look-ahead:
a token extends while the next byte is not white space. -/
def splitWs : Bytes → List Bytes
  | [] => []
  | [b] => if isWsB b then [] else [[b]]
  | b :: c :: bs =>
    if isWsB b then splitWs (c :: bs)
    else
      match splitWs (c :: bs) with
      | [] => [[b]]
      | t :: ts => if isWsB c then [b] :: t :: ts else (b :: t) :: ts

/-- `str::split(sep)` for a one-byte separator: the chunks between
occurrences of `sep` (empty chunks included, as in Rust). -/
def splitOnB (sep : Nat) : Bytes → List Bytes
  | [] => [[]]
  | b :: bs =>
    if b = sep then [] :: splitOnB sep bs
    else match splitOnB sep bs with
      | [] => [[b]]
      | s :: ss => (b :: s) :: ss

/-- The path normalisation of `Request::from_stream`: split the
request-target on `/` (byte 47) and keep only non-empty segments. -/
def pathSegments (t : Bytes) : List Bytes :=
  (splitOnB 47 t).filter (fun s => s ≠ [])

/-- `str::split_once(": ")`: split at the first occurrence of the
colon-space separator, if any. -/
def splitOnceCS : Bytes → Option (Bytes × Bytes)
  | [] => none
  | [_] => none
  | b :: c :: bs =>
    if b = 58 ∧ c = 32 then some ([], bs)
    else match splitOnceCS (c :: bs) with
      | some xy => some (b :: xy.1, xy.2)
      | none => none

/-- ASCII lower-casing of one byte (`u8::to_ascii_lowercase`). -/
def lowerB (b : Nat) : Nat := if 65 ≤ b ∧ b ≤ 90 then b + 32 else b

/-- `str::eq_ignore_ascii_case`. -/
def eqIC (a b : Bytes) : Bool := a.map lowerB == b.map lowerB

/-- ASCII decimal digit. -/
def isDigitB (b : Nat) : Bool := 48 ≤ b && b ≤ 57

/-- Value of a list of ASCII digits. -/
def digitsVal (l : Bytes) : Nat := l.foldl (fun a b => a * 10 + (b - 48)) 0

/-- `str::parse::<usize>()`: an optional `+` sign, then one or more
digits, value below `2 ^ 64` (64-bit `usize`); anything else is `none`. -/
def parseUsize (l : Bytes) : Option Nat :=
  let d := match l with
    | 43 :: rest => rest
    | _ => l
  if d ≠ [] ∧ d.all isDigitB then
    if digitsVal d < 2 ^ 64 then some (digitsVal d) else none
  else none

/-- UTF-8 continuation byte. -/
def isCont (b : Nat) : Bool := 128 ≤ b && b ≤ 191

/-- The replacement character U+FFFD, as UTF-8 bytes. -/
def rep3 : Bytes := [239, 191, 189]

/-- Lead-byte classification for UTF-8: for a multi-byte lead, the
allowed range of the first continuation byte and the number of further
continuation bytes; `none` for an invalid lead byte. -/
def leadInfo (b : Nat) : Option (Nat × Nat × Nat) :=
  if 194 ≤ b ∧ b ≤ 223 then some (128, 191, 0)
  else if b = 224 then some (160, 191, 1)
  else if 225 ≤ b ∧ b ≤ 236 then some (128, 191, 1)
  else if b = 237 then some (128, 159, 1)
  else if 238 ≤ b ∧ b ≤ 239 then some (128, 191, 1)
  else if b = 240 then some (144, 191, 2)
  else if 241 ≤ b ∧ b ≤ 243 then some (128, 191, 2)
  else if b = 244 then some (128, 143, 2)
  else none

/-- Consume up to `n` further continuation bytes after the prefix `acc`
of a sequence; on a non-continuation byte or end of input, report
failure with the bytes consumed so far. -/
def contRun (acc : Bytes) : Nat → Bytes → Bool × Bytes × Bytes
  | 0, bs => (true, acc, bs)
  | _ + 1, [] => (false, acc, [])
  | n + 1, c :: bs => if isCont c then contRun (acc ++ [c]) n bs else (false, acc, c :: bs)

/-- One step of UTF-8 decoding at the head of a non-empty stream:
`(ok, consumed, rest)`.  When the head starts a well-formed scalar-value
sequence, `ok = true` and `consumed` is that sequence; otherwise
`ok = false` and `consumed` is the maximal subpart of a valid sequence
(the unit replaced by one U+FFFD under the lossy decoding rule that
Rust's `String::from_utf8_lossy` documents). -/
def chop : Bytes → Bool × Bytes × Bytes
  | [] => (false, [], [])
  | b :: bs =>
    if b < 128 then (true, [b], bs)
    else
      match leadInfo b with
      | none => (false, [b], bs)
      | some (lo, hi, extra) =>
        match bs with
        | [] => (false, [b], [])
        | c :: bs' =>
          if lo ≤ c ∧ c ≤ hi then contRun [b, c] extra bs'
          else (false, [b], c :: bs')

/-- The recursion of UTF-8 validation, on fuel: `chop` consumes at
least one byte per step, so fuel `l.length` always suffices and the
fuel-exhausted case (reachable only on the empty stream) returns the
empty stream's answer. -/
def utf8ValidGo : Nat → Bytes → Bool
  | _, [] => true
  | 0, _ :: _ => false
  | n + 1, b :: bs => (chop (b :: bs)).1 && utf8ValidGo n (chop (b :: bs)).2.2

/-- `str::from_utf8` validity (thus also `BufRead::read_line` success):
every byte is part of a well-formed UTF-8 scalar-value sequence. -/
def utf8Valid (l : Bytes) : Bool := utf8ValidGo l.length l

/-- The recursion of the lossy decoder, on fuel (see `utf8ValidGo`). -/
def utf8LossyGo : Nat → Bytes → Bytes
  | _, [] => []
  | 0, _ :: _ => []
  | n + 1, b :: bs =>
    (if (chop (b :: bs)).1 then (chop (b :: bs)).2.1 else rep3) ++
      utf8LossyGo n (chop (b :: bs)).2.2

/-- `String::from_utf8_lossy`, re-encoded to bytes: well-formed
sequences pass through, each maximal invalid subpart becomes U+FFFD. -/
def utf8Lossy (l : Bytes) : Bytes := utf8LossyGo l.length l

/-- `BufRead::read_line` line extraction: the bytes up to and including
the first `\n` (byte 10), or the whole rest of the stream at EOF, and
the remaining stream. -/
def takeLine : Bytes → Bytes × Bytes
  | [] => ([], [])
  | b :: bs =>
    if b = 10 then ([10], bs)
    else ((b :: (takeLine bs).1), (takeLine bs).2)

/-- `BufRead::read_line`: the next line (terminator included) and the
remaining stream; `none` when the bytes read are not valid UTF-8 (the
`Err` case that `.ok()?` turns into a parse failure).  At EOF it
returns the empty line (Rust's `Ok(0)`). -/
def readLine (s : Bytes) : Option (Bytes × Bytes) :=
  if utf8Valid (takeLine s).1 then some (takeLine s) else none

abbrev HMap := List (Bytes × Bytes)

/-- `HashMap::insert` (the map's key set and the stored value; returns
the updated map). -/
def hmInsert : HMap → Bytes → Bytes → HMap
  | [], k, v => [(k, v)]
  | (k', v') :: m, k, v =>
    if k' = k then (k', v) :: m else (k', v') :: hmInsert m k v

/-- `HashMap::get`: exact (case-sensitive) key lookup. -/
def hmGet : HMap → Bytes → Option Bytes
  | [], _ => none
  | (k', v') :: m, k => if k' = k then some v' else hmGet m k

/-- `headers.iter().find(|(k, _)| k.eq_ignore_ascii_case(name))`: the
first entry, in the model's iteration order, whose key equals `name`
up to ASCII case. -/
def findCI : HMap → Bytes → Option Bytes
  | [], _ => none
  | (k', v') :: m, k => if eqIC k' k then some v' else findCI m k

/-- The `Request` struct of the source.  `body` holds the UTF-8 bytes of
the lossily decoded body string. -/
structure Request where
  method : Bytes
  path : List Bytes
  version : Bytes
  headers : HMap
  body : Bytes
deriving DecidableEq

/-- The recursion of the header loop, on fuel: each iteration consumes
at least one byte (`read_line` returns 0 bytes only at EOF), so fuel
`s.length` always suffices; the fuel-exhausted case, reachable only on
the empty stream, returns the empty stream's answer (exit the loop). -/
def readHeadersGo : Nat → Bytes → HMap → Option (HMap × Bytes)
  | 0, _, acc => some (acc, [])
  | n + 1, s, acc =>
    match readLine s with
    | none => none
    | some (line, rest) =>
      if line = [] then some (acc, rest)
      else if trimEnd line = [] then some (acc, rest)
      else
        match splitOnceCS (trimEnd line) with
        | some kv => readHeadersGo n rest (hmInsert acc kv.1 kv.2)
        | none => readHeadersGo n rest acc

/-- The header loop of `Request::from_stream`: read lines until an empty
line, or until `read_line` returns 0 bytes (which happens exactly at
EOF); store each line that splits on `": "`, silently drop the others.
Returns the headers collected and the remaining stream. -/
def readHeaders (s : Bytes) (acc : HMap) : Option (HMap × Bytes) :=
  readHeadersGo s.length s acc

def contentLengthK : Bytes := asciiBytes "Content-Length"

/-- The tail of `Request::from_stream` after the request line has been
tokenised into `method`, `target` (the request-target) and `version`:
read headers, compute the Content-Length (0 when absent or unparsable),
read exactly that many body bytes (failing when the stream is shorter),
and build the `Request` with the lossily decoded body. -/
def fromStreamCore (method target version : Bytes) (s1 : Bytes) :
    Option (Request × Bytes) :=
  match readHeaders s1 [] with
  | none => none
  | some (headers, s2) =>
    let n := ((findCI headers contentLengthK).bind parseUsize).getD 0
    if n ≤ s2.length then
      some ({ method := method, path := pathSegments target, version := version,
              headers := headers, body := utf8Lossy (s2.take n) }, s2.drop n)
    else none

/-- `Request::from_stream`: read the request line, split it on white
space into at least three tokens (else fail), then parse headers and
body.  Returns the request together with the unconsumed stream. -/
def Request.fromStream (s : Bytes) : Option (Request × Bytes) :=
  match readLine s with
  | none => none
  | some (fl, s1) =>
    match splitWs (trimEnd fl) with
    | method :: target :: version :: _ => fromStreamCore method target version s1
    | _ => none

def contentTypeK : Bytes := asciiBytes "Content-Type"
def textPlainV : Bytes := asciiBytes "text/plain"
def octetStreamV : Bytes := asciiBytes "application/octet-stream"
def userAgentK : Bytes := asciiBytes "User-Agent"
def unknownV : Bytes := asciiBytes "Unknown"
def connectionK : Bytes := asciiBytes "Connection"
def closeV : Bytes := asciiBytes "close"
def echoSeg : Bytes := asciiBytes "echo"
def userAgentSeg : Bytes := asciiBytes "user-agent"
def filesSeg : Bytes := asciiBytes "files"
def getM : Bytes := asciiBytes "GET"
def postM : Bytes := asciiBytes "POST"
def ok200 : Bytes := asciiBytes "200 OK"
def badRequest400 : Bytes := asciiBytes "400 Bad Request"
def notFound404 : Bytes := asciiBytes "404 Not Found"
def created201 : Bytes := asciiBytes "201 Created"
def methodNotAllowed405 : Bytes := asciiBytes "405 Method Not Allowed"

/-- Decimal digits of a natural number, as ASCII bytes
(`usize::to_string`). -/
def natBytes (n : Nat) : Bytes := asciiBytes (Nat.repr n)

/-- The `Response` struct of the source. -/
structure Response where
  status_code : Bytes
  headers : HMap
  body : Bytes
deriving DecidableEq

/-- `Response::new`: seed `Content-Type: text/plain` and
`Content-Length: <body byte length>`. -/
def Response.new (status body : Bytes) : Response :=
  { status_code := status,
    headers := hmInsert (hmInsert [] contentTypeK textPlainV)
      contentLengthK (natBytes body.length),
    body := body }

/-- `Response::add_header`. -/
def Response.addHeader (r : Response) (k v : Bytes) : Response :=
  { r with headers := hmInsert r.headers k v }

/-- One serialized header line (without terminator): `name`, `": "`,
`value`. -/
def hline (k v : Bytes) : Bytes := k ++ 58 :: 32 :: v

/-- The serialized header block of `Response::send`: one CRLF-terminated
line per header, in the model's iteration order. -/
def encHdrs : HMap → Bytes
  | [] => []
  | kv :: m => hline kv.1 kv.2 ++ 13 :: 10 :: encHdrs m

def http11Sp : Bytes := asciiBytes "HTTP/1.1 "

/-- `Response::send`: the exact wire bytes
`HTTP/1.1 <status>\r\n<headers>\r\n<body>`. -/
def Response.send (r : Response) : Bytes :=
  http11Sp ++ r.status_code ++ 13 :: 10 :: (encHdrs r.headers ++ 13 :: 10 :: r.body)

/-- The host filesystem, the external collaborator of the `files` route:
`readFile base name` models `read_file_content(base.join(name))`,
`createFile base name content` models `create_file(base.join(name),
content)`; the `Bytes` error is the formatted `io::Error` text. -/
structure FS where
  readFile : Bytes → Bytes → Except Bytes Bytes
  createFile : Bytes → Bytes → Bytes → Except Bytes Nat

/-- `HTTPHandler::handle_root`. -/
def handleRoot (_ : Request) : Response := Response.new ok200 []

/-- `HTTPHandler::handle_not_found`. -/
def handleNotFound : Response := Response.new notFound404 []

/-- `HTTPHandler::handle_echo`.  `req.path.get(1).unwrap()` is reached
whenever `path.len() < 1` fails; the unwrap of `None` (a panic) is
modelled as `none`. -/
def handleEcho (req : Request) : Option Response :=
  if req.path.length < 1 then some (Response.new badRequest400 [])
  else
    match req.path.get? 1 with
    | some seg => some (Response.new ok200 seg)
    | none => none

/-- `HTTPHandler::handle_user_agent`: case-insensitive search for the
`User-Agent` header, defaulting to `"Unknown"`. -/
def handleUserAgent (req : Request) : Response :=
  Response.new ok200 ((findCI req.headers userAgentK).getD unknownV)

/-- `HTTPHandler::handle_file`: POST writes the body, GET reads the
file (overriding `Content-Type`), other methods get 405; the unwrap of
a missing second segment is modelled as `none` (panic). -/
def handleFile (fs : FS) (base : Bytes) (req : Request) : Option Response :=
  if req.method = postM then
    if req.path.length < 1 then some (Response.new badRequest400 [])
    else
      match req.path.get? 1 with
      | none => none
      | some name =>
        match fs.createFile base name req.body with
        | .ok _ => some (Response.new created201 [])
        | .error e => some (Response.new badRequest400 e)
  else if req.method = getM then
    if req.path.length < 1 then some (Response.new badRequest400 [])
    else
      match req.path.get? 1 with
      | none => none
      | some name =>
        match fs.readFile base name with
        | .ok content =>
          some ((Response.new ok200 content).addHeader contentTypeK octetStreamV)
        | .error e => some (Response.new badRequest400 e)
  else some (Response.new methodNotAllowed405 [])

/-- `Server::dispatch`: route on `path.get(0).unwrap_or("")`.  `none`
models a panic inside the chosen handler. -/
def dispatch (fs : FS) (base : Bytes) (req : Request) : Option Response :=
  let seg := (req.path.get? 0).getD []
  if seg = [] then some (handleRoot req)
  else if seg = echoSeg then handleEcho req
  else if seg = userAgentSeg then some (handleUserAgent req)
  else if seg = filesSeg then handleFile fs base req
  else some handleNotFound

/-- The `Connection: close` test of `Server::handle_connection`:
exact `HashMap::get("Connection")`, value compared to `"close"`. -/
def connWantsClose (req : Request) : Bool :=
  hmGet req.headers connectionK == some closeV

/-- `Server::handle_connection`, as the trace of (request, response)
exchanges it performs on a stream, with `fuel` bounding the number of
loop iterations inspected.  A parse failure ends the trace; a handler
panic records `(req, none)` and ends the trace (the thread dies); after
a successful exchange the loop stops exactly when `connWantsClose`. -/
def handleConn (fs : FS) (base : Bytes) : Nat → Bytes → List (Request × Option Response)
  | 0, _ => []
  | fuel + 1, s =>
    match Request.fromStream s with
    | none => []
    | some (req, rest) =>
      match dispatch fs base req with
      | none => [(req, none)]
      | some resp =>
        if connWantsClose req then [(req, some resp)]
        else (req, some resp) :: handleConn fs base fuel rest

/-- Modelled from the spec: the source has no second parser, so the
"generic HTTP message" reader of the round-trip property (spec §8) is
assembled from the same building blocks as `Request::from_stream` —
read a raw (trimmed) start line, then headers and a Content-Length
framed body exactly as the request parser does.  Returns the status
line, the header map and the raw body bytes. -/
def msgParse (s : Bytes) : Option (Bytes × HMap × Bytes) :=
  match readLine s with
  | none => none
  | some (fl, s1) =>
    match readHeaders s1 [] with
    | none => none
    | some (hm, s2) =>
      let n := ((findCI hm contentLengthK).bind parseUsize).getD 0
      if n ≤ s2.length then some (trimEnd fl, hm, s2.take n) else none

/-- Fold a list of header pairs into a map with `hmInsert`, as the
header loop of the parser does. -/
def foldIns (acc : HMap) (hs : List (Bytes × Bytes)) : HMap :=
  hs.foldl (fun m kv => hmInsert m kv.1 kv.2) acc

/-- A header pair whose serialized line survives re-parsing: the line is
ASCII without `\n`, it carries no trailing white space, and the name
contains no `": "` (so the line splits back at the seam). -/
def wfHeaderPair (k v : Bytes) : Prop :=
  (∀ b ∈ hline k v, b < 128 ∧ b ≠ 10) ∧
    trimEnd (hline k v) = hline k v ∧ splitOnceCS k = none

instance (k v : Bytes) : Decidable (wfHeaderPair k v) := by
  unfold wfHeaderPair
  infer_instance

/-- A filesystem oracle whose every operation fails; the routes the
claims exercise never reach it. -/
def fsEmpty : FS :=
  { readFile := fun _ _ => Except.error [],
    createFile := fun _ _ _ => Except.error [] }

/-- `GET /echo` with no second path segment. -/
def exC1 : Bytes := asciiBytes "GET /echo HTTP/1.1\r\n\r\n"

def reqC1 : Request :=
  { method := asciiBytes "GET", path := [asciiBytes "echo"],
    version := asciiBytes "HTTP/1.1", headers := [], body := [] }

/-- A stream that ends (EOF) during the header section: no empty
end-of-headers line ever arrives. -/
def exC2 : Bytes := asciiBytes "GET / HTTP/1.1\r\nHost: x"

def reqC2 : Request :=
  { method := asciiBytes "GET", path := [],
    version := asciiBytes "HTTP/1.1",
    headers := [(asciiBytes "Host", asciiBytes "x")], body := [] }

/-- `Content-Length: 1` with a single body byte `0xFF`, which is not
valid UTF-8. -/
def exC3 : Bytes :=
  asciiBytes "GET / HTTP/1.1\r\nContent-Length: 1\r\n\r\n" ++ [255]

def reqC3 : Request :=
  { method := asciiBytes "GET", path := [],
    version := asciiBytes "HTTP/1.1",
    headers := [(contentLengthK, asciiBytes "1")], body := rep3 }

/-- Two requests on one connection; the first carries the close wish
under the lower-cased name `connection`. -/
def exC4 : Bytes :=
  asciiBytes
    "GET / HTTP/1.1\r\nconnection: close\r\n\r\nGET / HTTP/1.1\r\nConnection: close\r\n\r\n"

def reqC4 : Request :=
  { method := asciiBytes "GET", path := [],
    version := asciiBytes "HTTP/1.1",
    headers := [(asciiBytes "connection", closeV)], body := [] }

/-- The same header name on two lines under different casings. -/
def exC5 : Bytes := asciiBytes "GET / HTTP/1.1\r\nX-K: 1\r\nx-k: 2\r\n\r\n"

def reqC5 : Request :=
  { method := asciiBytes "GET", path := [],
    version := asciiBytes "HTTP/1.1",
    headers := [(asciiBytes "X-K", asciiBytes "1"),
                (asciiBytes "x-k", asciiBytes "2")], body := [] }

/-- A `Response` whose Content-Length matches its body but whose extra
header value embeds a CRLF CRLF, breaking the wire framing. -/
def respC6 : Response :=
  { status_code := ok200,
    headers := [(contentLengthK, asciiBytes "2"),
                (asciiBytes "X", asciiBytes "a\r\n\r\nQQ")],
    body := asciiBytes "hi" }

/-- One request that asks to close, under the exact name and value. -/
def wsC4 : Bytes := asciiBytes "GET / HTTP/1.1\r\nConnection: close\r\n\r\n"

def wreqC4 : Request :=
  { method := asciiBytes "GET", path := [],
    version := asciiBytes "HTTP/1.1",
    headers := [(connectionK, closeV)], body := [] }

/-- A request line with five tokens. -/
def wsC10 : Bytes := asciiBytes "GET / HTTP/1.1 x y\r\n\r\n"

/-- A request-target with a repeated and a trailing slash. -/
def wsC7 : Bytes := asciiBytes "GET /echo//abc/ HTTP/1.1\r\n\r\n"

/-- The request `wsC7` parses to. -/
def wreqC7 : Request :=
  { method := asciiBytes "GET", path := [asciiBytes "echo", asciiBytes "abc"],
    version := asciiBytes "HTTP/1.1", headers := [], body := [] }

/-- A request routed to the user-agent handler. -/
def wreqC8 : Request :=
  { method := asciiBytes "GET", path := [userAgentSeg],
    version := asciiBytes "HTTP/1.1",
    headers := [(asciiBytes "user-agent", asciiBytes "curl/8")], body := [] }

/-! General lemmas about the embedded operations. -/

theorem contRun_spec (n : Nat) (acc bs : Bytes) :
    ∃ pre, (contRun acc n bs).2.1 = acc ++ pre ∧ pre ++ (contRun acc n bs).2.2 = bs := by
  induction n generalizing acc bs with
  | zero => exact ⟨[], by simp [contRun]⟩
  | succ n ih =>
    match bs with
    | [] => exact ⟨[], by simp [contRun]⟩
    | c :: bs' =>
      by_cases hc : isCont c
      · obtain ⟨pre, h1, h2⟩ := ih (acc ++ [c]) bs'
        refine ⟨c :: pre, ?_, ?_⟩ <;> simp [contRun, hc, h1, h2]
      · exact ⟨[], by simp [contRun, hc]⟩

theorem chop_spec (l : Bytes) (h : l ≠ []) :
    (chop l).2.1 ≠ [] ∧ (chop l).2.1 ++ (chop l).2.2 = l := by
  match l with
  | [] => exact absurd rfl h
  | b :: bs =>
    simp only [chop]
    split
    · simp
    · match hli : leadInfo b with
      | none => simp
      | some (lo, hi, extra) =>
        match bs with
        | [] => simp
        | c :: bs' =>
          by_cases hc : lo ≤ c ∧ c ≤ hi
          · obtain ⟨pre, h1, h2⟩ := contRun_spec extra [b, c] bs'
            dsimp only
            rw [if_pos hc]
            constructor
            · simp [h1]
            · rw [h1, List.append_assoc, h2]
              simp
          · simp [hc]

theorem chop_rest_lt (l : Bytes) (h : l ≠ []) :
    (chop l).2.2.length < l.length := by
  obtain ⟨h1, h2⟩ := chop_spec l h
  have := congrArg List.length h2
  simp at this
  cases e : (chop l).2.1 with
  | nil => exact absurd e h1
  | cons x xs => rw [e] at this; simp at this; omega

theorem utf8ValidGo_fuel (n : Nat) : ∀ (m : Nat) (l : Bytes),
    l.length ≤ n → l.length ≤ m → utf8ValidGo n l = utf8ValidGo m l := by
  induction n with
  | zero =>
    intro m l hn _
    match l with
    | [] =>
      match m with
      | 0 => rfl
      | m + 1 => rfl
    | b :: bs => simp at hn
  | succ n ih =>
    intro m l hn hm
    match l with
    | [] =>
      match m with
      | 0 => rfl
      | m + 1 => rfl
    | b :: bs =>
      match m with
      | 0 => simp at hm
      | m + 1 =>
        have hlt := chop_rest_lt (b :: bs) (by simp)
        simp only [utf8ValidGo]
        rw [ih m (chop (b :: bs)).2.2
          (by simp only [List.length_cons] at hn hlt ⊢; omega)
          (by simp only [List.length_cons] at hm hlt ⊢; omega)]

theorem takeLine_concat (s : Bytes) : (takeLine s).1 ++ (takeLine s).2 = s := by
  induction s with
  | nil => simp [takeLine]
  | cons b bs ih =>
    by_cases h : b = 10
    · simp [takeLine, h]
    · simp only [takeLine, h, if_false, Bool.false_eq_true, List.cons_append]
      rw [ih]

theorem readLine_rest_lt (s line rest : Bytes)
    (h : readLine s = some (line, rest)) (hl : line ≠ []) :
    rest.length < s.length := by
  unfold readLine at h
  split at h
  · rw [Option.some.injEq] at h
    have h1 := congrArg Prod.fst h
    have h2 := congrArg Prod.snd h
    simp only at h1 h2
    have hc := takeLine_concat s
    rw [h1, h2] at hc
    have hlen := congrArg List.length hc
    have hpos : 0 < line.length := List.length_pos.mpr hl
    simp only [List.length_append] at hlen
    omega
  · exact absurd h (by simp)

/-- The `HashMap<String, String>` of the source, modelled as an
association list.  `hmInsert` keeps the first-inserted key and replaces
its value, as `HashMap::insert` does; iteration order of the Rust map is
arbitrary, and this model fixes it to insertion order (one admissible
behaviour of the unordered map). -/


theorem utf8Valid_of_ascii (l : Bytes) (h : ∀ b ∈ l, b < 128) :
    utf8Valid l = true := by
  induction l with
  | nil => rfl
  | cons b bs ih =>
    have hb : b < 128 := h b (by simp)
    show utf8ValidGo (b :: bs).length (b :: bs) = true
    simp only [List.length_cons, utf8ValidGo, chop, hb, if_true, Bool.true_and]
    exact ih (fun x hx => h x (by simp [hx]))

theorem utf8Lossy_of_valid (l : Bytes) (hv : utf8Valid l = true) :
    utf8Lossy l = l := by
  have main : ∀ n (l : Bytes), l.length ≤ n → utf8ValidGo n l = true →
      utf8LossyGo n l = l := by
    intro n
    induction n with
    | zero =>
      intro l hl _
      match l with
      | [] => rfl
      | b :: bs => simp at hl
    | succ n ih =>
      intro l hl hv
      match l with
      | [] => rfl
      | b :: bs =>
        rw [utf8ValidGo, Bool.and_eq_true] at hv
        obtain ⟨hok, hrest⟩ := hv
        obtain ⟨hne, hcat⟩ := chop_spec (b :: bs) (by simp)
        have hlt := chop_rest_lt (b :: bs) (by simp)
        rw [utf8LossyGo, hok, if_pos rfl]
        rw [ih (chop (b :: bs)).2.2
          (by simp only [List.length_cons] at hl hlt; omega) hrest]
        exact hcat
  exact main l.length l (le_refl _) hv

theorem takeLine_append (l r : Bytes) (h : ¬ 10 ∈ l) :
    takeLine (l ++ 10 :: r) = (l ++ [10], r) := by
  induction l with
  | nil => simp [takeLine]
  | cons b bs ih =>
    have hb : b ≠ 10 := by intro e; exact h (by simp [e])
    have ht := ih (fun hm => h (by simp [hm]))
    simp only [List.cons_append, takeLine, hb, if_false, Bool.false_eq_true, List.append_eq, ht]

theorem dropWhile_append_of_all (p : Nat → Bool) (a x : Bytes)
    (h : ∀ b ∈ a, p b = true) : (a ++ x).dropWhile p = x.dropWhile p := by
  induction a with
  | nil => rfl
  | cons b bs ih =>
    have hb : p b = true := h b (by simp)
    simp only [List.cons_append, List.dropWhile_cons, hb, if_true]
    exact ih (fun c hc => h c (by simp [hc]))

theorem trimEnd_append_ws (l t : Bytes) (h : ∀ b ∈ t, isWsB b = true) :
    trimEnd (l ++ t) = trimEnd l := by
  unfold trimEnd
  rw [List.reverse_append]
  rw [dropWhile_append_of_all isWsB t.reverse l.reverse
    (fun b hb => h b (List.mem_reverse.mp hb))]

theorem splitOnceCS_seam (k v : Bytes) (h : splitOnceCS k = none) :
    splitOnceCS (k ++ 58 :: 32 :: v) = some (k, v) := by
  induction k with
  | nil => simp [splitOnceCS]
  | cons b k' ih =>
    match k' with
    | [] =>
      have hb : ¬ (b = 58 ∧ 58 = 32) := by omega
      simp only [List.cons_append, List.nil_append, splitOnceCS, hb, if_false]
      simp [splitOnceCS]
    | c :: k'' =>
      rw [splitOnceCS] at h
      by_cases hbc : b = 58 ∧ c = 32
      · rw [if_pos hbc] at h; exact absurd h (by simp)
      · rw [if_neg hbc] at h
        have h2 : splitOnceCS (c :: k'') = none := by
          match e : splitOnceCS (c :: k'') with
          | none => rfl
          | some xy => rw [e] at h; exact absurd h (by simp)
        have ih2 := ih h2
        simp only [List.cons_append] at ih2 ⊢
        rw [splitOnceCS, if_neg hbc, ih2]

theorem readLine_full (l r : Bytes) (h10 : ¬ 10 ∈ l) (ha : ∀ b ∈ l, b < 128) :
    readLine (l ++ 10 :: r) = some (l ++ [10], r) := by
  unfold readLine
  rw [takeLine_append l r h10]
  have hv : utf8Valid (l ++ [10]) = true := by
    refine utf8Valid_of_ascii _ (fun b hb => ?_)
    rcases List.mem_append.mp hb with hm | hm
    · exact ha b hm
    · simp at hm; omega
  rw [if_pos hv]

theorem readHeadersGo_fuel (n : Nat) : ∀ (m : Nat) (s : Bytes) (acc : HMap),
    s.length ≤ n → s.length ≤ m → readHeadersGo n s acc = readHeadersGo m s acc := by
  induction n with
  | zero =>
    intro m s acc hn _
    have hs : s = [] := List.eq_nil_of_length_eq_zero (Nat.le_zero.mp hn)
    subst hs
    match m with
    | 0 => rfl
    | m + 1 => rfl
  | succ n ih =>
    intro m s acc hn hm
    match s with
    | [] =>
      match m with
      | 0 => rfl
      | m + 1 => rfl
    | b :: bs =>
      match m with
      | 0 => simp at hm
      | m + 1 =>
        simp only [readHeadersGo]
        match hr : readLine (b :: bs) with
        | none => rfl
        | some (line, rest) =>
          by_cases h1 : line = []
          · simp [h1]
          · have hlt := readLine_rest_lt (b :: bs) line rest hr h1
            by_cases h2 : trimEnd line = []
            · simp [h1, h2]
            · simp only [h1, h2, if_false, Bool.false_eq_true]
              have hb1 : rest.length ≤ n := by
                simp only [List.length_cons] at hn hlt
                omega
              have hb2 : rest.length ≤ m := by
                simp only [List.length_cons] at hm hlt
                omega
              match splitOnceCS (trimEnd line) with
              | some kv => exact ih m rest (hmInsert acc kv.1 kv.2) hb1 hb2
              | none => exact ih m rest acc hb1 hb2

theorem readHeaders_nil (acc : HMap) : readHeaders [] acc = some (acc, []) := rfl

theorem readHeaders_blank (r : Bytes) (acc : HMap) :
    readHeaders (13 :: 10 :: r) acc = some (acc, r) := by
  have h : readLine (13 :: 10 :: r) = some ([13, 10], r) := by
    have := readLine_full [13] r (by decide) (by decide)
    simpa using this
  show readHeadersGo (13 :: 10 :: r).length (13 :: 10 :: r) acc = some (acc, r)
  rw [List.length_cons, List.length_cons, readHeadersGo, h]
  rfl

theorem hline_ne_nil (k v : Bytes) : hline k v ≠ [] := by
  unfold hline
  intro e
  have := congrArg List.length e
  simp at this

theorem readHeaders_step (k v t : Bytes) (acc : HMap) (hwf : wfHeaderPair k v) :
    readHeaders (hline k v ++ 13 :: 10 :: t) acc = readHeaders t (hmInsert acc k v) := by
  obtain ⟨hb, htrim, hsk⟩ := hwf
  have h10 : ¬ 10 ∈ hline k v ++ [13] := by
    intro hm
    rcases List.mem_append.mp hm with hm | hm
    · exact (hb 10 hm).2 rfl
    · simp at hm
  have ha : ∀ b ∈ hline k v ++ [13], b < 128 := by
    intro b hm
    rcases List.mem_append.mp hm with hm | hm
    · exact (hb b hm).1
    · simp at hm; omega
  have hr : readLine (hline k v ++ 13 :: 10 :: t) = some (hline k v ++ [13, 10], t) := by
    have e : hline k v ++ 13 :: 10 :: t = (hline k v ++ [13]) ++ 10 :: t := by simp
    rw [e, readLine_full (hline k v ++ [13]) t h10 ha]
    simp
  have htr : trimEnd (hline k v ++ [13, 10]) = hline k v := by
    rw [trimEnd_append_ws _ [13, 10] (by decide), htrim]
  have aux : ∀ n, (hline k v ++ 13 :: 10 :: t).length ≤ n →
      readHeadersGo n (hline k v ++ 13 :: 10 :: t) acc = readHeaders t (hmInsert acc k v) := by
    intro n hn
    match n with
    | 0 =>
      exfalso
      simp only [List.length_append, List.length_cons, Nat.le_zero] at hn
      omega
    | n + 1 =>
      rw [readHeadersGo, hr]
      dsimp only
      rw [if_neg (by simp : ¬ (hline k v ++ [13, 10] : Bytes) = [])]
      rw [htr]
      rw [if_neg (hline_ne_nil k v)]
      unfold hline
      rw [splitOnceCS_seam k v hsk]
      exact readHeadersGo_fuel n t.length t (hmInsert acc k v)
        (by simp only [List.length_append, List.length_cons] at hn ⊢; omega) (le_refl _)
  exact aux (hline k v ++ 13 :: 10 :: t).length (le_refl _)

theorem readHeaders_encode (H : List (Bytes × Bytes)) (t : Bytes) (acc : HMap)
    (hwf : ∀ kv ∈ H, wfHeaderPair kv.1 kv.2) :
    readHeaders (encHdrs H ++ t) acc = readHeaders t (foldIns acc H) := by
  induction H generalizing acc with
  | nil => simp [encHdrs, foldIns]
  | cons kv H' ih =>
    have h1 := readHeaders_step kv.1 kv.2 (encHdrs H' ++ t) acc (hwf kv (by simp))
    have e : encHdrs (kv :: H') ++ t = hline kv.1 kv.2 ++ 13 :: 10 :: (encHdrs H' ++ t) := by
      simp [encHdrs]
    rw [e, h1, ih (hmInsert acc kv.1 kv.2) (fun p hp => hwf p (by simp [hp]))]
    rfl

theorem hmInsert_notmem (m : HMap) (k v : Bytes) (h : ¬ k ∈ m.map Prod.fst) :
    hmInsert m k v = m ++ [(k, v)] := by
  induction m with
  | nil => rfl
  | cons kv m' ih =>
    have hne : kv.1 ≠ k := by
      intro e; exact h (by simp [← e])
    have ih2 := ih (fun hm => h (by simp [hm]))
    match kv with
    | (k', v') =>
      simp only [hmInsert, hne, if_false, Bool.false_eq_true, List.cons_append]
      rw [ih2]

theorem foldIns_append (H : List (Bytes × Bytes)) (acc : HMap)
    (hnd : (H.map Prod.fst).Nodup)
    (hdis : ∀ k ∈ H.map Prod.fst, ¬ k ∈ acc.map Prod.fst) :
    foldIns acc H = acc ++ H := by
  induction H generalizing acc with
  | nil => simp [foldIns]
  | cons kv H' ih =>
    rw [List.map_cons, List.nodup_cons] at hnd
    obtain ⟨hk1, hnd'⟩ := hnd
    have h1 : ¬ kv.1 ∈ acc.map Prod.fst := hdis kv.1 (by simp)
    have e1 : foldIns acc (kv :: H') = foldIns (hmInsert acc kv.1 kv.2) H' := rfl
    have hdis' : ∀ k ∈ H'.map Prod.fst, ¬ k ∈ (acc ++ [(kv.1, kv.2)]).map Prod.fst := by
      intro k hk
      simp only [List.map_append, List.mem_append]
      intro hc
      rcases hc with hc | hc
      · exact hdis k (by simp [hk]) hc
      · simp at hc
        subst hc
        exact hk1 hk
    rw [e1, hmInsert_notmem acc kv.1 kv.2 h1, ih (acc ++ [(kv.1, kv.2)]) hnd' hdis']
    simp

theorem hmGet_insert (m : HMap) (k v : Bytes) :
    hmGet (hmInsert m k v) k = some v := by
  induction m with
  | nil => simp [hmInsert, hmGet]
  | cons kv m' ih =>
    match kv with
    | (k', v') =>
      by_cases e : k' = k
      · subst e
        simp [hmInsert, hmGet]
      · simp only [hmInsert, if_neg e, hmGet]
        exact ih

theorem eqIC_congr (k1 k2 x : Bytes) (h : eqIC k1 k2 = true) :
    eqIC x k1 = eqIC x k2 := by
  unfold eqIC at *
  rw [beq_iff_eq] at h
  rw [h]

theorem findCI_congr (m : HMap) (k1 k2 : Bytes) (h : eqIC k1 k2 = true) :
    findCI m k1 = findCI m k2 := by
  induction m with
  | nil => rfl
  | cons kv m' ih =>
    match kv with
    | (k', v') =>
      simp only [findCI]
      rw [eqIC_congr k1 k2 k' h, ih]

theorem findCI_mem (m : HMap) (k v : Bytes) (h : findCI m k = some v) :
    ∃ k', (k', v) ∈ m ∧ eqIC k' k = true := by
  induction m with
  | nil => exact absurd h (by simp [findCI])
  | cons kv m' ih =>
    match kv with
    | (k', v') =>
      rw [findCI] at h
      by_cases e : eqIC k' k = true
      · rw [if_pos e, Option.some.injEq] at h
        exact ⟨k', by simp [h], e⟩
      · rw [if_neg e] at h
        obtain ⟨k'', hm, he⟩ := ih h
        exact ⟨k'', by simp [hm], he⟩

theorem splitOnB_ne_nil (sep : Nat) (l : Bytes) : splitOnB sep l ≠ [] := by
  match l with
  | [] => simp [splitOnB]
  | b :: bs =>
    by_cases h : b = sep
    · simp [splitOnB, h]
    · simp only [splitOnB, h, if_false, Bool.false_eq_true]
      match e : splitOnB sep bs with
      | [] => simp
      | s :: ss => simp

theorem splitOnB_sep_append (x y : Bytes) :
    splitOnB 47 (x ++ 47 :: y) = splitOnB 47 x ++ splitOnB 47 y := by
  induction x with
  | nil => simp [splitOnB]
  | cons c x' ih =>
    match e : splitOnB 47 x' with
    | [] => exact absurd e (splitOnB_ne_nil 47 x')
    | s :: ss =>
      by_cases h : c = 47
      · subst h
        simp only [List.cons_append, splitOnB, if_pos rfl, List.append_eq, ih, if_true]
      · simp only [List.cons_append, splitOnB, h, if_false, Bool.false_eq_true,
          List.append_eq, ih, e]

theorem pathSegments_sep_append (x y : Bytes) :
    pathSegments (x ++ 47 :: y) = pathSegments x ++ pathSegments y := by
  unfold pathSegments
  rw [splitOnB_sep_append, List.filter_append]

theorem pathSegments_mem_ne_nil (t s : Bytes) (h : s ∈ pathSegments t) : s ≠ [] := by
  unfold pathSegments at h
  have := List.of_mem_filter h
  simpa using this

/-! The claims.  Each claim of CLAIMS.json has exactly one theorem here,
with its counterexample and witness where the status calls for them. -/

/-- C1: the claim (and the spec's routing table) promise a clean
`400 Bad Request` when `/echo` has no second segment, but under
`dispatch` the route is taken exactly when `path[0] = "echo"`, so
`path.len() < 1` is never true there and `handle_echo` unwraps
`path.get(1)`, which panics (modelled as `none`) on the parseable
request `GET /echo HTTP/1.1`. -/
theorem c1_echo_missing_segment_is_panic :
    Request.fromStream exC1 = some (reqC1, []) ∧
    reqC1.path = [echoSeg] ∧
    dispatch fsEmpty [] reqC1 = none := by decide

/-- C2 counterexample: a stream that ends right after one header line,
with no empty end-of-headers line ever read, is parsed successfully
(headers kept, empty body) — not rejected with `None` as the claim
states.  The `while read_line > 0` loop exits normally at EOF. -/
theorem c2_eof_mid_headers_counterexample :
    Request.fromStream exC2 = some (reqC2, []) := by decide

/-- C2 amended: a stream that ends during the header section is treated
as "no more headers": the headers read so far are kept and parsing
proceeds to the body phase, succeeding with an empty body when no valid
Content-Length header was collected, and failing only when a positive
Content-Length then demands body bytes the stream no longer has. -/
theorem c2_eof_mid_headers_amended
    (s fl s1 m t v : Bytes) (e : List Bytes) (H : List (Bytes × Bytes))
    (hrl : readLine s = some (fl, s1))
    (htok : splitWs (trimEnd fl) = m :: t :: v :: e)
    (hs1 : s1 = encHdrs H)
    (hwf : ∀ kv ∈ H, wfHeaderPair kv.1 kv.2) :
    (findCI (foldIns [] H) contentLengthK = none →
      Request.fromStream s =
        some ({ method := m, path := pathSegments t, version := v,
                headers := foldIns [] H, body := [] }, [])) ∧
    (∀ cv n, findCI (foldIns [] H) contentLengthK = some cv →
      parseUsize cv = some n → 0 < n → Request.fromStream s = none) := by
  subst hs1
  have hcore : readHeaders (encHdrs H) [] = some (foldIns [] H, []) := by
    have := readHeaders_encode H [] [] hwf
    rw [List.append_nil] at this
    rw [this, readHeaders_nil]
  have hfs : Request.fromStream s = fromStreamCore m t v (encHdrs H) := by
    unfold Request.fromStream
    rw [hrl]
    dsimp only
    rw [htok]
  constructor
  · intro hcl
    rw [hfs]
    unfold fromStreamCore
    rw [hcore]
    dsimp only
    rw [hcl]
    rfl
  · intro cv n hcl hn hpos
    rw [hfs]
    unfold fromStreamCore
    rw [hcore]
    dsimp only
    rw [hcl]
    simp only [Option.bind, hn, Option.getD, List.length_nil]
    rw [if_neg (by omega)]

/-- C3 counterexample: with `Content-Length: 1` and the single body byte
`0xFF`, parsing succeeds and consumes exactly one byte, but the returned
body is the lossy decoding `String::from_utf8_lossy` produced — the
three-byte replacement character — so its length is 3, not 1. -/
theorem c3_lossy_body_counterexample :
    Request.fromStream exC3 = some (reqC3, []) ∧
    findCI reqC3.headers contentLengthK = some (asciiBytes "1") ∧
    parseUsize (asciiBytes "1") = some 1 ∧
    reqC3.body.length = 3 := by decide

/-- C3 amended: when the collected headers hold a Content-Length that
parses as `n`, the parser reads exactly `n` bytes (consuming them from
the stream) and returns their lossy UTF-8 decoding as the body — whose
length is `n` whenever those bytes are valid UTF-8, but may differ on
invalid bytes; if fewer than `n` bytes remain, parsing returns `none`,
so a partially-read body is never returned. -/
theorem c3_content_length_amended
    (m t v s1 : Bytes) (hm : HMap) (s2 cv : Bytes) (n : Nat)
    (hrh : readHeaders s1 [] = some (hm, s2))
    (hcl : findCI hm contentLengthK = some cv)
    (hn : parseUsize cv = some n) :
    (n ≤ s2.length →
      fromStreamCore m t v s1 =
        some ({ method := m, path := pathSegments t, version := v,
                headers := hm, body := utf8Lossy (s2.take n) }, s2.drop n) ∧
      (utf8Valid (s2.take n) = true → (utf8Lossy (s2.take n)).length = n)) ∧
    (s2.length < n → fromStreamCore m t v s1 = none) := by
  have hbase : fromStreamCore m t v s1 =
      if n ≤ s2.length then
        some ({ method := m, path := pathSegments t, version := v,
                headers := hm, body := utf8Lossy (s2.take n) }, s2.drop n)
      else none := by
    unfold fromStreamCore
    rw [hrh]
    dsimp only
    rw [hcl]
    simp only [Option.bind, hn, Option.getD]
  constructor
  · intro hle
    constructor
    · rw [hbase, if_pos hle]
    · intro hv
      rw [utf8Lossy_of_valid _ hv, List.length_take]
      omega
  · intro hgt
    rw [hbase, if_neg (by omega)]

/-- C3 witness: a valid-UTF-8 body of declared length 2 comes back with
length exactly 2, and a stream one byte short of its declared length is
rejected. -/
theorem c3_content_length_witness :
    (fromStreamCore (asciiBytes "GET") (asciiBytes "/") (asciiBytes "HTTP/1.1")
        (asciiBytes "Content-Length: 2\r\n\r\nhi") =
      some ({ method := asciiBytes "GET", path := [], version := asciiBytes "HTTP/1.1",
              headers := [(contentLengthK, asciiBytes "2")],
              body := utf8Lossy (asciiBytes "hi") }, [])) ∧
    fromStreamCore (asciiBytes "GET") (asciiBytes "/") (asciiBytes "HTTP/1.1")
        (asciiBytes "Content-Length: 2\r\n\r\nh") = none := by
  constructor
  · have h := (c3_content_length_amended (asciiBytes "GET") (asciiBytes "/")
      (asciiBytes "HTTP/1.1") (asciiBytes "Content-Length: 2\r\n\r\nhi")
      [(contentLengthK, asciiBytes "2")] (asciiBytes "hi") (asciiBytes "2") 2
      (by decide) (by decide) (by decide)).1 (by decide)
    exact h.1
  · exact (c3_content_length_amended (asciiBytes "GET") (asciiBytes "/")
      (asciiBytes "HTTP/1.1") (asciiBytes "Content-Length: 2\r\n\r\nh")
      [(contentLengthK, asciiBytes "2")] (asciiBytes "h") (asciiBytes "2") 2
      (by decide) (by decide) (by decide)).2 (by decide)

/-- C2 witness: a request line followed by one complete header line and
then EOF parses successfully with that header collected. -/
theorem c2_eof_mid_headers_witness :
    Request.fromStream (asciiBytes "GET / HTTP/1.1\r\nHost: x\r\n") =
      some ({ method := asciiBytes "GET", path := pathSegments (asciiBytes "/"),
              version := asciiBytes "HTTP/1.1",
              headers := foldIns [] [(asciiBytes "Host", asciiBytes "x")],
              body := [] }, []) :=
  (c2_eof_mid_headers_amended (asciiBytes "GET / HTTP/1.1\r\nHost: x\r\n")
    (asciiBytes "GET / HTTP/1.1\r\n") (asciiBytes "Host: x\r\n")
    (asciiBytes "GET") (asciiBytes "/") (asciiBytes "HTTP/1.1") []
    [(asciiBytes "Host", asciiBytes "x")]
    (by decide) (by decide) (by decide) (by decide)).1 (by decide)

/-- C4 counterexample: the first request's `Connection` header, found by
the data model's case-insensitive lookup, has value exactly `"close"`
(it arrived as `connection: close`), yet the loop does not close — it
reads a second request from the same connection, because the source
looks the header up with the exact-key `HashMap::get("Connection")`. -/
theorem c4_case_insensitive_close_counterexample :
    Request.fromStream exC4 =
      some (reqC4, asciiBytes "GET / HTTP/1.1\r\nConnection: close\r\n\r\n") ∧
    findCI reqC4.headers connectionK = some closeV ∧
    (handleConn fsEmpty [] 5 exC4).length = 2 := by decide

/-- C4 amended: after a successfully parsed and dispatched request, the
connection closes (no further request is read, whatever remains on the
stream) exactly when the request's headers hold the exact key
`"Connection"` with value exactly `"close"`; otherwise the loop goes on
to parse the remaining stream. -/
theorem c4_connection_close_amended
    (fs : FS) (base : Bytes) (fuel : Nat) (s : Bytes) (req : Request)
    (rest : Bytes) (resp : Response)
    (hp : Request.fromStream s = some (req, rest))
    (hd : dispatch fs base req = some resp) :
    (hmGet req.headers connectionK = some closeV →
      handleConn fs base (fuel + 1) s = [(req, some resp)]) ∧
    (hmGet req.headers connectionK ≠ some closeV →
      handleConn fs base (fuel + 1) s =
        (req, some resp) :: handleConn fs base fuel rest) := by
  constructor
  · intro h
    rw [handleConn, hp]
    dsimp only
    rw [hd]
    dsimp only
    rw [if_pos (by rw [connWantsClose, h]; rfl)]
  · intro h
    rw [handleConn, hp]
    dsimp only
    rw [hd]
    dsimp only
    rw [if_neg (by rw [connWantsClose]; simpa using h)]

/-- C4 witness: a request whose exact `Connection: close` header closes
the connection after one exchange, leaving any further bytes unread. -/
theorem c4_connection_close_witness :
    handleConn fsEmpty [] 3 wsC4 = [(wreqC4, some (Response.new ok200 []))] :=
  (c4_connection_close_amended fsEmpty [] 2 wsC4 wreqC4 [] (Response.new ok200 [])
    (by decide) (by decide)).1 (by decide)

/-- C5 counterexample: the name `x-k` occurs on two header lines under
different casings; the last occurrence carries value `"2"`, but the
case-insensitive lookup walks the map and returns the first entry it
meets — here the value `"1"` of the first occurrence, not the last. -/
theorem c5_duplicate_casing_counterexample :
    Request.fromStream exC5 = some (reqC5, []) ∧
    reqC5.headers = [(asciiBytes "X-K", asciiBytes "1"),
                     (asciiBytes "x-k", asciiBytes "2")] ∧
    findCI reqC5.headers (asciiBytes "x-k") = some (asciiBytes "1") := by decide

/-- C5 amended: header lookup is case-insensitive (names equal up to
ASCII case are interchangeable); a repeated name under the identical
casing keeps only the last value (`HashMap::insert` overwrites, and the
exact lookup returns it); and whatever value the case-insensitive
lookup returns is the value of some stored occurrence whose name
matches up to case — but with duplicates under different casings both
entries remain, and which one wins follows the map's iteration order,
not the order of arrival. -/
theorem c5_header_lookup_amended :
    (∀ (m : HMap) (k1 k2 : Bytes), eqIC k1 k2 = true → findCI m k1 = findCI m k2) ∧
    (∀ (m : HMap) (k v : Bytes), hmGet (hmInsert m k v) k = some v) ∧
    (∀ (m : HMap) (k v : Bytes), findCI m k = some v →
      ∃ k', (k', v) ∈ m ∧ eqIC k' k = true) :=
  ⟨findCI_congr, hmGet_insert, findCI_mem⟩

/-- C5 witness: lookups under the two casings of one name agree, and
inserting twice under one casing leaves the second value. -/
theorem c5_header_lookup_witness :
    findCI [(asciiBytes "X-K", asciiBytes "1")] (asciiBytes "x-k") =
      findCI [(asciiBytes "X-K", asciiBytes "1")] (asciiBytes "X-K") ∧
    hmGet (hmInsert [(asciiBytes "A", asciiBytes "1")] (asciiBytes "A") (asciiBytes "2"))
      (asciiBytes "A") = some (asciiBytes "2") :=
  ⟨c5_header_lookup_amended.1 [(asciiBytes "X-K", asciiBytes "1")]
      (asciiBytes "x-k") (asciiBytes "X-K") (by decide),
    c5_header_lookup_amended.2.1 [(asciiBytes "A", asciiBytes "1")]
      (asciiBytes "A") (asciiBytes "2")⟩

/-- C6 counterexample: this `Response` satisfies the claim's hypothesis
(its Content-Length header, `"2"`, parses to its body's byte length),
yet re-parsing its serialization does not recover the body: a CRLF CRLF
inside a header value ends the header block early, so the re-parsed
body is `"QQ"` while the response's body was `"hi"`. -/
theorem c6_crlf_injection_counterexample :
    findCI respC6.headers contentLengthK = some (asciiBytes "2") ∧
    parseUsize (asciiBytes "2") = some respC6.body.length ∧
    msgParse respC6.send =
      some (asciiBytes "HTTP/1.1 200 OK",
        [(contentLengthK, asciiBytes "2"), (asciiBytes "X", asciiBytes "a")],
        asciiBytes "QQ") ∧
    asciiBytes "QQ" ≠ respC6.body := by decide

/-- C6 amended: the round trip holds for every `Response` whose
serialized lines survive the line discipline — ASCII status code and
header pairs with no `\n`, no trailing white space, no `": "` inside a
name, and pairwise distinct names — and whose Content-Length header
parses to the body's byte length: re-parsing the serialization recovers
the status line, the body bytes, and the very header map (hence a
Content-Length equal to the body's length). -/
theorem c6_roundtrip_amended (r : Response) (cv : Bytes)
    (hwf : ∀ kv ∈ r.headers, wfHeaderPair kv.1 kv.2)
    (hnd : (r.headers.map Prod.fst).Nodup)
    (hsc : ∀ b ∈ r.status_code, b < 128 ∧ b ≠ 10)
    (hst : trimEnd (http11Sp ++ r.status_code) = http11Sp ++ r.status_code)
    (hcl : findCI r.headers contentLengthK = some cv)
    (hn : parseUsize cv = some r.body.length) :
    msgParse r.send = some (http11Sp ++ r.status_code, r.headers, r.body) := by
  have hsend : r.send = ((http11Sp ++ r.status_code) ++ [13]) ++
      10 :: (encHdrs r.headers ++ 13 :: 10 :: r.body) := by
    unfold Response.send
    simp
  have h10 : ¬ 10 ∈ (http11Sp ++ r.status_code) ++ [13] := by
    intro hm
    rcases List.mem_append.mp hm with hm1 | hm1
    · rcases List.mem_append.mp hm1 with hm2 | hm2
      · exact (by decide : ¬ 10 ∈ http11Sp) hm2
      · exact (hsc 10 hm2).2 rfl
    · simp at hm1
  have ha : ∀ b ∈ (http11Sp ++ r.status_code) ++ [13], b < 128 := by
    intro b hm
    rcases List.mem_append.mp hm with hm1 | hm1
    · rcases List.mem_append.mp hm1 with hm2 | hm2
      · exact (by decide : ∀ x ∈ http11Sp, x < 128) b hm2
      · exact (hsc b hm2).1
    · simp at hm1; omega
  have hrl : readLine r.send =
      some (((http11Sp ++ r.status_code) ++ [13]) ++ [10],
        encHdrs r.headers ++ 13 :: 10 :: r.body) := by
    rw [hsend, readLine_full _ _ h10 ha]
  have hfold : foldIns [] r.headers = r.headers := by
    have h := foldIns_append r.headers [] hnd (by simp)
    rw [List.nil_append] at h
    exact h
  have hhd : readHeaders (encHdrs r.headers ++ 13 :: 10 :: r.body) [] =
      some (r.headers, r.body) := by
    rw [readHeaders_encode r.headers (13 :: 10 :: r.body) [] hwf,
      readHeaders_blank, hfold]
  have htrim1 : trimEnd (((http11Sp ++ r.status_code) ++ [13]) ++ [10]) =
      http11Sp ++ r.status_code := by
    have e : ((http11Sp ++ r.status_code) ++ [13]) ++ [10] =
        (http11Sp ++ r.status_code) ++ [13, 10] := by simp
    rw [e, trimEnd_append_ws _ [13, 10] (by decide), hst]
  unfold msgParse
  rw [hrl]
  dsimp only
  rw [hhd]
  dsimp only
  rw [hcl]
  simp only [Option.bind, hn, Option.getD]
  rw [if_pos (le_refl _), List.take_length, htrim1]

/-- C6 witness: a `Response::new`-built response (`200 OK`, body `hi`)
round-trips: re-parsing its serialization yields its status line, its
header map, and its body. -/
theorem c6_roundtrip_witness :
    msgParse (Response.new ok200 (asciiBytes "hi")).send =
      some (http11Sp ++ ok200,
        (Response.new ok200 (asciiBytes "hi")).headers, asciiBytes "hi") :=
  c6_roundtrip_amended (Response.new ok200 (asciiBytes "hi")) (natBytes 2)
    (by decide) (by decide) (by decide) (by decide) (by decide) (by decide)

/-- C7: the parsed path never holds an empty segment; `/`, `//` and
`/echo/abc` normalise as the spec says; splitting is a homomorphism
over any `/`, so leading, trailing and repeated slashes never introduce
segments; and on every successful parse the request's `path` field is
exactly `pathSegments` of the second request-line token. -/
theorem c7_path_normalisation :
    (∀ (t s : Bytes), s ∈ pathSegments t → s ≠ []) ∧
    pathSegments (asciiBytes "/") = [] ∧
    pathSegments (asciiBytes "//") = [] ∧
    pathSegments (asciiBytes "/echo/abc") = [asciiBytes "echo", asciiBytes "abc"] ∧
    (∀ (x y : Bytes), pathSegments (x ++ 47 :: y) = pathSegments x ++ pathSegments y) ∧
    (∀ t : Bytes, pathSegments (47 :: t) = pathSegments t) ∧
    (∀ t : Bytes, pathSegments (t ++ [47]) = pathSegments t) ∧
    (∀ (s fl s1 m t v : Bytes) (e : List Bytes) (req : Request) (rest : Bytes),
      readLine s = some (fl, s1) →
      splitWs (trimEnd fl) = m :: t :: v :: e →
      Request.fromStream s = some (req, rest) →
      req.path = pathSegments t) := by
  refine ⟨pathSegments_mem_ne_nil, by decide, by decide, by decide,
    pathSegments_sep_append, ?_, ?_, ?_⟩
  · intro t
    have h := pathSegments_sep_append [] t
    rw [List.nil_append] at h
    exact h
  · intro t
    have h := pathSegments_sep_append t []
    rw [h]
    simp [pathSegments, splitOnB]
  · intro s fl s1 m t v e req rest hrl htok hp
    unfold Request.fromStream at hp
    rw [hrl] at hp
    dsimp only at hp
    rw [htok] at hp
    unfold fromStreamCore at hp
    match hh : readHeaders s1 [] with
    | none => rw [hh] at hp; exact absurd hp (by simp)
    | some (hm, s2) =>
      rw [hh] at hp
      dsimp only at hp
      split at hp
      · rw [Option.some.injEq] at hp
        have := congrArg Prod.fst hp
        simp only at this
        rw [← this]
      · exact absurd hp (by simp)

/-- C7 witness: parsing `GET /echo//abc/ HTTP/1.1` yields the path
`["echo", "abc"]` — the repeated and trailing slashes add nothing. -/
theorem c7_path_normalisation_witness :
    ∃ req rest, Request.fromStream wsC7 = some (req, rest) ∧
      req.path = pathSegments (asciiBytes "/echo//abc/") ∧
      pathSegments (asciiBytes "/echo//abc/") = [asciiBytes "echo", asciiBytes "abc"] := by
  refine ⟨wreqC7, [], by decide, ?_, by decide⟩
  exact c7_path_normalisation.2.2.2.2.2.2.2 wsC7
    (asciiBytes "GET /echo//abc/ HTTP/1.1\r\n") (asciiBytes "\r\n")
    (asciiBytes "GET") (asciiBytes "/echo//abc/") (asciiBytes "HTTP/1.1") []
    _ [] (by decide) (by decide) (by decide)

/-- C8: every request routed on first segment `user-agent` gets a
`200 OK` response whose body is the case-insensitively looked-up
`User-Agent` value, defaulting to `"Unknown"`; both the lower-case and
the canonical casing of the header name are found. -/
theorem c8_user_agent_route :
    (∀ (fs : FS) (base : Bytes) (req : Request) (ps : List Bytes),
      req.path = userAgentSeg :: ps →
      dispatch fs base req =
        some (Response.new ok200 ((findCI req.headers userAgentK).getD unknownV))) ∧
    (∀ X : Bytes, findCI [(asciiBytes "user-agent", X)] userAgentK = some X) ∧
    (∀ X : Bytes, findCI [(userAgentK, X)] userAgentK = some X) ∧
    (∀ m : HMap, findCI m userAgentK = none →
      (Response.new ok200 ((findCI m userAgentK).getD unknownV)).body = unknownV) := by
  refine ⟨?_, ?_, ?_, ?_⟩
  · intro fs base req ps hpath
    unfold dispatch
    rw [hpath]
    dsimp only [List.get?, Option.getD]
    rw [if_neg (by decide : ¬ (userAgentSeg = ([] : Bytes)))]
    rw [if_neg (by decide : ¬ (userAgentSeg = echoSeg))]
    rw [if_pos rfl]
    rfl
  · intro X
    rw [findCI, if_pos (by decide : eqIC (asciiBytes "user-agent") userAgentK = true)]
  · intro X
    rw [findCI, if_pos (by decide : eqIC userAgentK userAgentK = true)]
  · intro m h
    rw [h]
    rfl

/-- C8 witness: a request with path `["user-agent"]` and header
`user-agent: curl/8` is answered `200 OK` with body `curl/8`. -/
theorem c8_user_agent_witness :
    dispatch fsEmpty [] wreqC8 =
      some (Response.new ok200
        ((findCI wreqC8.headers userAgentK).getD unknownV)) :=
  c8_user_agent_route.1 fsEmpty [] wreqC8 [] (by decide)

/-- C9: when the request line holds fewer than three white-space
tokens, `Request::from_stream` returns `None` before any path
normalisation — the token match fails first. -/
theorem c9_short_request_line (s fl s1 : Bytes)
    (hrl : readLine s = some (fl, s1))
    (htok : (splitWs (trimEnd fl)).length < 3) :
    Request.fromStream s = none := by
  unfold Request.fromStream
  rw [hrl]
  dsimp only
  match e : splitWs (trimEnd fl) with
  | [] => rfl
  | [a] => rfl
  | [a, b] => rfl
  | a :: b :: c :: rest =>
    rw [e] at htok
    simp only [List.length_cons] at htok
    omega

/-- C9 witness: `GET /` (two tokens, request-target but no version —
and a missing request-target behaves the same) fails to parse. -/
theorem c9_short_request_line_witness :
    Request.fromStream (asciiBytes "GET /\r\n\r\n") = none :=
  c9_short_request_line (asciiBytes "GET /\r\n\r\n") (asciiBytes "GET /\r\n")
    (asciiBytes "\r\n") (by decide) (by decide)

/-- C10: with three or more tokens on the request line, parsing
proceeds with exactly the first three as method, request-target and
version — the result equals the core parse on those three, whatever
the extra tokens were — and on success the request's fields come from
those tokens. -/
theorem c10_extra_tokens_ignored (s fl s1 m t v : Bytes) (extra : List Bytes)
    (hrl : readLine s = some (fl, s1))
    (htok : splitWs (trimEnd fl) = m :: t :: v :: extra) :
    Request.fromStream s = fromStreamCore m t v s1 ∧
    (∀ (req : Request) (rest : Bytes), fromStreamCore m t v s1 = some (req, rest) →
      req.method = m ∧ req.path = pathSegments t ∧ req.version = v) := by
  constructor
  · unfold Request.fromStream
    rw [hrl]
    dsimp only
    rw [htok]
  · intro req rest hp
    unfold fromStreamCore at hp
    match hh : readHeaders s1 [] with
    | none => rw [hh] at hp; exact absurd hp (by simp)
    | some (hm, s2) =>
      rw [hh] at hp
      dsimp only at hp
      split at hp
      · rw [Option.some.injEq] at hp
        have h1 := congrArg Prod.fst hp
        simp only at h1
        rw [← h1]
        exact ⟨rfl, rfl, rfl⟩
      · exact absurd hp (by simp)

/-- C10 witness: a five-token request line parses exactly as its first
three tokens prescribe; the two extra tokens are ignored. -/
theorem c10_extra_tokens_witness :
    Request.fromStream wsC10 =
      fromStreamCore (asciiBytes "GET") (asciiBytes "/") (asciiBytes "HTTP/1.1")
        (asciiBytes "\r\n") :=
  (c10_extra_tokens_ignored wsC10 (asciiBytes "GET / HTTP/1.1 x y\r\n")
    (asciiBytes "\r\n") (asciiBytes "GET") (asciiBytes "/") (asciiBytes "HTTP/1.1")
    [asciiBytes "x", asciiBytes "y"] (by decide) (by decide)).1
